import Mathlib

/-!
Shallow embedding of `bitwarden_bulk_delete.go` (package main) and proofs of
the specification's claims about it.

The program drives the external `bw` CLI. All interaction with the outside
world (subprocess execution, stdin, JSON decoding) is modelled by oracle
functions passed explicitly; the Go control flow and data flow are translated
function by function. Concurrency (the worker pool of `processItems`) is
modelled by an arbitrary assignment of job indices to workers plus an
arbitrary arrival-order reordering of the results channel, quantified over in
the theorems.
-/

/-- Go struct `BitwardenItem` (lines 13-16): decoded element of `bw list items`. -/
structure BitwardenItem where
  id : String
  name : String
deriving DecidableEq, Repr

/-- Go struct `CommandOptions` (lines 18-22). `batchSize` is a Go `int`, which may be
negative; we model it as `Int`. -/
structure CommandOptions where
  searchTerm : String
  batchSize : Int
  isPermanent : Bool
deriving DecidableEq, Repr

/-- Go struct `DeleteStats` (lines 24-27). Both fields are non-negative in every run
(total is a length, completed a counter started at 0), so we use `Nat`. -/
structure DeleteStats where
  total : Nat
  completed : Nat
deriving DecidableEq, Repr

/-- Line 31. -/
def emojiError : String := "❌"
/-- Line 32. -/
def emojiSuccess : String := "✅"
/-- Line 34. -/
def emojiSearch : String := "🔍"
/-- Line 35. -/
def emojiWarning : String := "⚠️"
/-- Line 39. -/
def emojiComplete : String := "🎉"

/-- Outcome of one external subprocess, as observable through Go's `os/exec`:
either the process could not be started, or it exited with a code and wrote
some bytes to stdout and stderr. -/
inductive ProcOutcome where
  | startFailure (msg : String)
  | exited (code : Nat) (stdout : String) (stderr : String)
deriving DecidableEq, Repr

/-- The `error` value returned by `cmd.Run()` / `cmd.Output()` /
`cmd.CombinedOutput()`: non-nil exactly when the process could not start or
exited non-zero. -/
def procErr : ProcOutcome → Option String
  | .startFailure msg => some msg
  | .exited code _ _ => if code ≠ 0 then some ("exit status " ++ toString code) else none

/-- The three shapes of agent invocation appearing in the source:
`syncBitwarden` (line 130) uses `CombinedOutput`, `fetchBitwardenItems`
(line 152) uses `Output`, `deleteWorker` (line 233) uses `Run`. -/
inductive InvokeMode where
  | sync
  | list
  | delete
deriving DecidableEq, Repr

/-- Combined stdout+stderr of a finished process (what `CombinedOutput`
captures; the exact interleaving is abstracted as concatenation). -/
def combinedOf : ProcOutcome → String
  | .startFailure _ => ""
  | .exited _ out err => out ++ err

/-- The output bytes the Go code actually holds after each kind of
invocation: `CombinedOutput` (sync, line 130) captures stdout and stderr,
`Output` (list, line 152) captures stdout only, and `Run` (delete, line 233)
captures nothing. -/
def capturedOutput : InvokeMode → ProcOutcome → String
  | .sync, r => combinedOf r
  | .list, .exited _ out _ => out
  | .list, .startFailure _ => ""
  | .delete, _ => ""

/-- The shell command string built by `fetchBitwardenItems` (lines 146-149):
`"bw list items"`, with ` --search '<term>'` appended when the term is
non-empty. -/
def listCmdString (searchTerm : String) : String :=
  let base := "bw list items"
  if searchTerm ≠ "" then base ++ (" --search '" ++ searchTerm ++ "'") else base

/-- The two failure kinds of `fetchBitwardenItems`: subprocess failure
(line 154) vs JSON parse failure (line 159). -/
inductive FetchError where
  | execError (msg : String)
  | parseError (msg : String)
deriving DecidableEq, Repr

/-- Embedding of `fetchBitwardenItems` (lines 143-163). `exec` models running the shell
command (line 151-152), `unmarshal` models `json.Unmarshal` (line 158). The
parsed items are returned as-is: no client-side filtering. -/
def fetchBitwardenItems (exec : String → ProcOutcome)
    (unmarshal : String → Except String (List BitwardenItem))
    (searchTerm : String) : Except FetchError (List BitwardenItem) :=
  let out := exec (listCmdString searchTerm)
  match procErr out with
  | some e => .error (.execError ("error executing list command: " ++ e))
  | none =>
    match unmarshal (capturedOutput .list out) with
    | .error e => .error (.parseError ("error parsing list output: " ++ e))
    | .ok items => .ok items

/-- Characters Go's `fmt` scanner treats as in-line spaces. -/
def isSpaceChar (c : Char) : Bool := c == ' ' || c == '\t'

/-- Core of the `fmt.Scanln(&confirm)` model on the raw character list: take
the current line, skip leading spaces, scan one space-delimited token; error
if the line is empty or if non-space characters remain after the token
(Go's `expected newline` error). Models the documented behaviour of
`fmt.Scanln` with a single `*string` argument (call site: line 185). -/
def scanlnCore (cs : List Char) : Except String (List Char) :=
  let line := cs.takeWhile (fun c => !(c == '\n'))
  let afterLead := line.dropWhile isSpaceChar
  let token := afterLead.takeWhile (fun c => !(isSpaceChar c))
  let rest := afterLead.dropWhile (fun c => !(isSpaceChar c))
  if token.isEmpty then .error "unexpected newline"
  else if (rest.dropWhile isSpaceChar).isEmpty then .ok token
  else .error "expected newline"

/-- Model of `fmt.Scanln(&confirm)` (line 185) on the whole stdin contents. -/
def scanln (s : String) : Except String String :=
  match scanlnCore s.data with
  | .ok t => .ok (String.mk t)
  | .error e => .error e

/-- Model of `strings.ToLower` (line 190), modelled by mapping ASCII case folding
over the character list. (Lean's `String.toLower` is extensionally the same
function but is defined by position-based recursion that does not reduce;
mapping over `data` keeps the model executable.) -/
def toLowerStr (s : String) : String := String.mk (s.data.map Char.toLower)

/-- Embedding of `confirmDeletion` (lines 177-192), with the result of the `Scanln` read
passed in: a read error is a decline (lines 185-188); otherwise the token is
lowercased and compared against `"y"` and `"yes"` (lines 190-191). -/
def confirmDeletion (readResult : Except String String) : Bool :=
  match readResult with
  | .error _ => false
  | .ok confirm =>
    let c := toLowerStr confirm
    c == "y" || c == "yes"

/-- The argv of the delete subprocess built by `deleteWorker`
(lines 227-231). -/
def deleteCmdArgs (isPermanent : Bool) (itemID : String) : List String :=
  if isPermanent then ["bw", "delete", "item", itemID, "--permanent"]
  else ["bw", "delete", "item", itemID]

/-- What one worker accumulates: error log lines (line 234), delete commands
issued (line 233), and completion events sent on `results` (line 236). -/
structure WorkerOutput where
  logs : List String
  cmds : List (List String)
  events : List String
deriving DecidableEq, Repr

/-- The log line printed on a failed deletion (line 234). -/
def deleteErrorLog (itemID err : String) : String :=
  emojiError ++ " Error deleting item " ++ itemID ++ ": " ++ err

/-- One iteration of the `deleteWorker` loop body (lines 224-237): build the
delete command, run it (`runCmd` returns `some err` on failure), log a
failure, and emit the item id on `results` regardless of outcome. -/
def workerStep (runCmd : List String → Option String) (isPermanent : Bool)
    (acc : WorkerOutput) (itemID : String) : WorkerOutput :=
  let cmd := deleteCmdArgs isPermanent itemID
  let logs := match runCmd cmd with
    | some e => acc.logs ++ [deleteErrorLog itemID e]
    | none => acc.logs
  { logs := logs, cmds := acc.cmds ++ [cmd], events := acc.events ++ [itemID] }

/-- Embedding of `deleteWorker` (lines 222-238) applied to the subsequence of jobs this
worker receives from the `jobs` channel. -/
def deleteWorker (runCmd : List String → Option String) (isPermanent : Bool)
    (myJobs : List String) : WorkerOutput :=
  myJobs.foldl (workerStep runCmd isPermanent) ⟨[], [], []⟩

/-- The jobs (from index `i` on) that worker `w` receives, for a fixed
assignment `asgn` of job indices to workers. The channel delivers each job to
exactly one worker, in submission order; `asgn` captures one such schedule. -/
def workerJobs (asgn : Nat → Nat) (w : Nat) : Nat → List String → List String
  | _, [] => []
  | i, j :: rest =>
    if asgn i = w then j :: workerJobs asgn w (i + 1) rest
    else workerJobs asgn w (i + 1) rest

/-- Number of workers started by the loop `for w := 1; w <= batchSize; w++`
(line 201): `batchSize` when positive, `0` otherwise. -/
def numWorkers (batchSize : Int) : Nat := batchSize.toNat

/-- The per-worker outputs of one engine run with `C` workers. -/
def engineWorkerOutputs (runCmd : List String → Option String) (isPermanent : Bool)
    (jobs : List String) (asgn : Nat → Nat) (C : Nat) : List WorkerOutput :=
  (List.range C).map (fun w => deleteWorker runCmd isPermanent (workerJobs asgn w 0 jobs))

/-- All completion events of one engine run, in per-worker blocks (the
arrival interleaving on the `results` channel is applied separately). -/
def engineEvents (runCmd : List String → Option String) (isPermanent : Bool)
    (jobs : List String) (asgn : Nat → Nat) (C : Nat) : List String :=
  ((engineWorkerOutputs runCmd isPermanent jobs asgn C).map WorkerOutput.events).flatten

/-- All delete commands issued during one engine run. -/
def engineCmds (runCmd : List String → Option String) (isPermanent : Bool)
    (jobs : List String) (asgn : Nat → Nat) (C : Nat) : List (List String) :=
  ((engineWorkerOutputs runCmd isPermanent jobs asgn C).map WorkerOutput.cmds).flatten

/-- One step of the `processResults` loop (lines 241-244): each received
event increments `completed` by one. -/
def resultStep (stats : DeleteStats) (_itemID : String) : DeleteStats :=
  { stats with completed := stats.completed + 1 }

/-- Embedding of `processResults` (lines 240-246): drain the events in arrival order,
incrementing `completed` for each. -/
def processResults (events : List String) (stats : DeleteStats) : DeleteStats :=
  events.foldl resultStep stats

/-- Embedding of `showCompletionMessage` (lines 248-254): the final banner, phrased in
terms of `stats.total`. -/
def showCompletionMessage (stats : DeleteStats) (options : CommandOptions) : String :=
  if options.isPermanent then
    emojiComplete ++ " All " ++ toString stats.total ++ " items have been permanently deleted!"
  else
    emojiComplete ++ " All " ++ toString stats.total ++ " items have been moved to trash!"

/-- Result of `processItems` (lines 194-220) for one schedule: the commands
issued, the events in arrival order, the final stats after `processResults`
(line 216), and the banner printed by `showCompletionMessage` (line 217).
`asgn` fixes which worker receives each job index, `arrive` fixes the
interleaving observed on the `results` channel. -/
structure ProcessOutcome where
  cmds : List (List String)
  events : List String
  stats : DeleteStats
  message : String
deriving DecidableEq, Repr

/-- Embedding of `processItems` (lines 194-220). -/
def processItems (items : List BitwardenItem) (stats : DeleteStats)
    (options : CommandOptions) (runCmd : List String → Option String)
    (asgn : Nat → Nat) (arrive : List String → List String) : ProcessOutcome :=
  let jobs := items.map BitwardenItem.id
  let C := numWorkers options.batchSize
  let evs := arrive (engineEvents runCmd options.isPermanent jobs asgn C)
  { cmds := engineCmds runCmd options.isPermanent jobs asgn C
    events := evs
    stats := processResults evs stats
    message := showCompletionMessage (processResults evs stats) options }

/-- Embedding of `parseCommandLineOptions` (lines 51-76), given the parsed flag values:
the long flag wins unless it is at its default and the short flag is not.
No validation is performed on any value. -/
def parseCommandLineOptions (searchLong searchShort : String)
    (batchLong batchShort : Int) (permLong permShort : Bool) : CommandOptions :=
  let st := if searchLong = "" ∧ searchShort ≠ "" then searchShort else searchLong
  let bs := if batchLong = 1 ∧ batchShort ≠ 1 then batchShort else batchLong
  { searchTerm := st, batchSize := bs, isPermanent := permLong || permShort }

/-- The environment one run of the program observes: whether `bw` is on the
PATH (`exec.LookPath`, line 116), the outcome of the list subprocess, the
behaviour of `json.Unmarshal`, the raw stdin contents, the outcome of each
delete subprocess, and the schedule (`asgn`, `arrive`) realised by the
worker pool. The two `bw sync` calls (lines 85-87 and 107-109) only produce
warning text and never change control flow or data, so they are elided. -/
structure Env where
  bwFound : Bool
  listExec : String → ProcOutcome
  unmarshal : String → Except String (List BitwardenItem)
  stdin : String
  runCmd : List String → Option String
  asgn : Nat → Nat
  arrive : List String → List String

/-- The fatal errors `runBulkDelete` can return (lines 79-81 and 89-92). -/
inductive RunError where
  | bwNotFound (msg : String)
  | fetchError (e : FetchError)
deriving DecidableEq, Repr

/-- Observable trace of one `runBulkDelete` call: its return value, whether
the confirmation prompt was consulted, every delete command issued, the
final stats, and the completion banner (when deletion ran). -/
structure RunTrace where
  result : Except RunError Unit
  askedConfirm : Bool
  deletes : List (List String)
  stats : DeleteStats
  finalMessage : Option String

/-- Embedding of `runBulkDelete` (lines 78-113): check the CLI, fetch items, and when any
were found, confirm and run the deletion engine. A decline returns `nil`
(exit 0) having deleted nothing (lines 98-101); stats are created with
`total = len(items)`, `completed = 0` (line 94). -/
def runBulkDelete (env : Env) (options : CommandOptions) : RunTrace :=
  if env.bwFound = false then
    { result := .error (.bwNotFound "Bitwarden CLI (bw) not found in PATH")
      askedConfirm := false, deletes := [], stats := ⟨0, 0⟩, finalMessage := none }
  else
    match fetchBitwardenItems env.listExec env.unmarshal options.searchTerm with
    | .error e =>
      { result := .error (.fetchError e)
        askedConfirm := false, deletes := [], stats := ⟨0, 0⟩, finalMessage := none }
    | .ok items =>
      let stats : DeleteStats := ⟨items.length, 0⟩
      if stats.total > 0 then
        if confirmDeletion (scanln env.stdin) then
          let po := processItems items stats options env.runCmd env.asgn env.arrive
          { result := .ok (), askedConfirm := true, deletes := po.cmds
            stats := po.stats, finalMessage := some po.message }
        else
          { result := .ok (), askedConfirm := true, deletes := []
            stats := stats, finalMessage := none }
      else
        { result := .ok (), askedConfirm := false, deletes := []
          stats := stats, finalMessage := none }

/-- Embedding of `main` (lines 42-49): exit status 1 on a `runBulkDelete` error, 0
otherwise. -/
def mainExitCode (env : Env) (options : CommandOptions) : Nat :=
  match (runBulkDelete env options).result with
  | .error _ => 1
  | .ok _ => 0

/-- The log lines a worker produces for a given job subsequence: one line
per failed delete invocation, in order. -/
def workerLogs (runCmd : List String → Option String) (isPermanent : Bool) :
    List String → List String
  | [] => []
  | j :: rest =>
    (match runCmd (deleteCmdArgs isPermanent j) with
      | some e => [deleteErrorLog j e]
      | none => []) ++ workerLogs runCmd isPermanent rest

theorem foldl_workerStep (rc : List String → Option String) (p : Bool) :
    ∀ (l : List String) (acc : WorkerOutput),
      l.foldl (workerStep rc p) acc =
        ⟨acc.logs ++ workerLogs rc p l, acc.cmds ++ l.map (deleteCmdArgs p),
          acc.events ++ l⟩ := by
  intro l
  induction l with
  | nil => intro acc; simp [workerLogs]
  | cons j rest ih =>
    intro acc
    rw [List.foldl_cons, ih]
    simp only [workerStep, workerLogs, List.map_cons]
    cases h : rc (deleteCmdArgs p j) <;> simp [h]

theorem deleteWorker_eq (rc : List String → Option String) (p : Bool)
    (l : List String) :
    deleteWorker rc p l = ⟨workerLogs rc p l, l.map (deleteCmdArgs p), l⟩ := by
  simp [deleteWorker, foldl_workerStep]

theorem flatten_map_ite_cons {α : Type} (a : α) (f : Nat → List α) (k : Nat) :
    ∀ (ws : List Nat), k ∈ ws → ws.Nodup →
      ((ws.map (fun w => if k = w then a :: f w else f w)).flatten).Perm
        (a :: (ws.map f).flatten) := by
  intro ws
  induction ws with
  | nil => intro h; cases h
  | cons w ws ih =>
    intro hk hnd
    rcases List.mem_cons.mp hk with rfl | hk'
    · have hrest : ws.map (fun x => if k = x then a :: f x else f x) = ws.map f := by
        apply List.map_congr_left
        intro x hx
        have hne : ¬ (k = x) := fun h => (List.nodup_cons.mp hnd).1 (h ▸ hx)
        simp [hne]
      simp [hrest]
    · have hkw : ¬ (k = w) := fun h => (List.nodup_cons.mp hnd).1 (h ▸ hk')
      have ihp := ih hk' (List.nodup_cons.mp hnd).2
      simp only [List.map_cons, List.flatten_cons, if_neg hkw]
      exact (ihp.append_left (f w)).trans List.perm_middle

theorem flatten_workerJobs_perm (asgn : Nat → Nat) (C : Nat) :
    ∀ (jobs : List String) (i : Nat), (∀ k, k < jobs.length → asgn (i + k) < C) →
      (((List.range C).map (fun w => workerJobs asgn w i jobs)).flatten).Perm jobs := by
  intro jobs
  induction jobs with
  | nil => intro i _; simp [workerJobs]
  | cons j rest ih =>
    intro i h
    have h0 : asgn i < C := by simpa using h 0 (by simp)
    have hmem : asgn i ∈ List.range C := List.mem_range.mpr h0
    have hrw : (List.range C).map (fun w => workerJobs asgn w i (j :: rest)) =
        (List.range C).map (fun w =>
          if asgn i = w then j :: workerJobs asgn w (i + 1) rest
          else workerJobs asgn w (i + 1) rest) := rfl
    have ih' := ih (i + 1) (fun k hk => by
      have hk' := h (k + 1) (by simpa using Nat.succ_lt_succ hk)
      have he : i + (k + 1) = i + 1 + k := by omega
      exact he ▸ hk')
    rw [hrw]
    exact (flatten_map_ite_cons j (fun w => workerJobs asgn w (i + 1) rest)
      (asgn i) (List.range C) hmem (List.nodup_range C)).trans (ih'.cons j)

theorem engineEvents_eq_flatten (rc : List String → Option String) (p : Bool)
    (jobs : List String) (asgn : Nat → Nat) (C : Nat) :
    engineEvents rc p jobs asgn C =
      ((List.range C).map (fun w => workerJobs asgn w 0 jobs)).flatten := by
  unfold engineEvents engineWorkerOutputs
  rw [List.map_map]
  congr 1
  apply List.map_congr_left
  intro w _
  simp [deleteWorker_eq]

theorem engineEvents_perm (rc : List String → Option String) (p : Bool)
    (jobs : List String) (asgn : Nat → Nat) (C : Nat)
    (h : ∀ i, i < jobs.length → asgn i < C) :
    (engineEvents rc p jobs asgn C).Perm jobs := by
  rw [engineEvents_eq_flatten]
  exact flatten_workerJobs_perm asgn C jobs 0 (fun k hk => by simpa using h k hk)

theorem processResults_eq (l : List String) (s : DeleteStats) :
    processResults l s = ⟨s.total, s.completed + l.length⟩ := by
  induction l generalizing s with
  | nil => rfl
  | cons a l ih =>
    show processResults l (resultStep s a) = _
    rw [ih]
    simp [resultStep, DeleteStats.mk.injEq]
    omega

theorem processItems_stats (items : List BitwardenItem) (stats : DeleteStats)
    (options : CommandOptions) (rc : List String → Option String)
    (asgn : Nat → Nat) (arrive : List String → List String) :
    (processItems items stats options rc asgn arrive).stats =
      processResults
        (arrive (engineEvents rc options.isPermanent (items.map BitwardenItem.id)
          asgn (numWorkers options.batchSize))) stats := rfl

theorem processItems_events (items : List BitwardenItem) (stats : DeleteStats)
    (options : CommandOptions) (rc : List String → Option String)
    (asgn : Nat → Nat) (arrive : List String → List String) :
    (processItems items stats options rc asgn arrive).events =
      arrive (engineEvents rc options.isPermanent (items.map BitwardenItem.id)
        asgn (numWorkers options.batchSize)) := rfl

theorem processItems_cmds (items : List BitwardenItem) (stats : DeleteStats)
    (options : CommandOptions) (rc : List String → Option String)
    (asgn : Nat → Nat) (arrive : List String → List String) :
    (processItems items stats options rc asgn arrive).cmds =
      engineCmds rc options.isPermanent (items.map BitwardenItem.id)
        asgn (numWorkers options.batchSize) := rfl

theorem processItems_message (items : List BitwardenItem) (stats : DeleteStats)
    (options : CommandOptions) (rc : List String → Option String)
    (asgn : Nat → Nat) (arrive : List String → List String) :
    (processItems items stats options rc asgn arrive).message =
      showCompletionMessage (processItems items stats options rc asgn arrive).stats
        options := rfl

/-- C1: for every job count `T ≥ 0` (the length of `items`) and every
concurrency `C = numWorkers batchSize ≥ 1`, a full run of the engine
(`processItems`, which ends in `processResults`) over any worker assignment
and any arrival order finishes with `completed = total = T`; each job
identifier occurs in the event stream exactly as often as in the job list
(exactly one `CompletionEvent` per job), and the multiset of jobs delivered
across all workers is exactly the job list (each job delivered to exactly
one worker). -/
theorem batch_run_completes_all
    (items : List BitwardenItem) (options : CommandOptions)
    (runCmd : List String → Option String) (asgn : Nat → Nat)
    (arrive : List String → List String)
    (hC : 1 ≤ numWorkers options.batchSize)
    (hasgn : ∀ i, i < items.length → asgn i < numWorkers options.batchSize)
    (harr : ∀ l, (arrive l).Perm l) :
    (processItems items ⟨items.length, 0⟩ options runCmd asgn arrive).stats.completed
        = items.length ∧
    (processItems items ⟨items.length, 0⟩ options runCmd asgn arrive).stats.total
        = items.length ∧
    (∀ ident, ((processItems items ⟨items.length, 0⟩ options runCmd asgn arrive).events).count ident
        = (items.map BitwardenItem.id).count ident) ∧
    (((List.range (numWorkers options.batchSize)).map
        (fun w => workerJobs asgn w 0 (items.map BitwardenItem.id))).flatten).Perm
      (items.map BitwardenItem.id) := by
  have hlen : (items.map BitwardenItem.id).length = items.length := by simp
  have hasgn' : ∀ i, i < (items.map BitwardenItem.id).length →
      asgn i < numWorkers options.batchSize := fun i hi => hasgn i (by rwa [hlen] at hi)
  have permEv : (arrive (engineEvents runCmd options.isPermanent
      (items.map BitwardenItem.id) asgn (numWorkers options.batchSize))).Perm
      (items.map BitwardenItem.id) :=
    (harr _).trans (engineEvents_perm _ _ _ _ _ hasgn')
  refine ⟨?_, ?_, ?_, ?_⟩
  · rw [processItems_stats, processResults_eq]
    simpa [hlen] using permEv.length_eq
  · rw [processItems_stats, processResults_eq]
  · intro ident
    rw [processItems_events]
    exact permEv.count_eq ident
  · exact flatten_workerJobs_perm asgn _ _ 0 (fun k hk => by simpa using hasgn' k hk)

theorem batch_run_completes_all_witness :
    (processItems [⟨"a", "one"⟩, ⟨"b", "two"⟩] ⟨2, 0⟩ ⟨"", 2, false⟩
      (fun _ => none) (fun i => i % 2) id).stats.completed = 2 :=
  (batch_run_completes_all [⟨"a", "one"⟩, ⟨"b", "two"⟩] ⟨"", 2, false⟩
    (fun _ => none) (fun i => i % 2) id (by decide)
    (fun i _ => Nat.mod_lt i (by decide)) (fun l => List.Perm.refl l)).1

/-- C6: with `T` items and the stats initialised to `⟨T, 0⟩`, the
`completed` counter after draining any prefix of the arrival-ordered event
stream is monotone in the prefix length, never exceeds `total = T`, and
equals `T` exactly when the whole (closed) event stream has been drained. -/
theorem completed_monotone_bounded
    (items : List BitwardenItem) (options : CommandOptions)
    (runCmd : List String → Option String) (asgn : Nat → Nat)
    (arrive : List String → List String) (evs : List String)
    (hC : 1 ≤ numWorkers options.batchSize)
    (hasgn : ∀ i, i < items.length → asgn i < numWorkers options.batchSize)
    (harr : ∀ l, (arrive l).Perm l)
    (hevs : evs = (processItems items ⟨items.length, 0⟩ options runCmd asgn arrive).events) :
    (∀ k k', k ≤ k' →
      (processResults (evs.take k) ⟨items.length, 0⟩).completed ≤
        (processResults (evs.take k') ⟨items.length, 0⟩).completed) ∧
    (∀ k, (processResults (evs.take k) ⟨items.length, 0⟩).completed ≤ items.length) ∧
    (∀ k, ((processResults (evs.take k) ⟨items.length, 0⟩).completed = items.length ↔
      evs.length ≤ k)) := by
  have hlen : evs.length = items.length := by
    have hperm : evs.Perm (items.map BitwardenItem.id) := by
      rw [hevs, processItems_events]
      exact (harr _).trans (engineEvents_perm _ _ _ _ _
        (fun i hi => hasgn i (by simpa using hi)))
    simpa using hperm.length_eq
  refine ⟨?_, ?_, ?_⟩
  · intro k k' hk
    rw [processResults_eq, processResults_eq]
    simp only [List.length_take]
    omega
  · intro k
    rw [processResults_eq]
    simp only [List.length_take]
    omega
  · intro k
    rw [processResults_eq]
    simp only [List.length_take]
    omega

theorem completed_monotone_bounded_witness :
    (processResults
      (((processItems [⟨"a", "one"⟩, ⟨"b", "two"⟩] ⟨2, 0⟩ ⟨"", 2, false⟩
        (fun _ => none) (fun i => i % 2) id).events).take 1) ⟨2, 0⟩).completed ≤ 2 :=
  (completed_monotone_bounded [⟨"a", "one"⟩, ⟨"b", "two"⟩] ⟨"", 2, false⟩
    (fun _ => none) (fun i => i % 2) id _ (by decide)
    (fun i _ => Nat.mod_lt i (by decide)) (fun l => List.Perm.refl l) rfl).2.1 1

theorem mem_workerLogs (rc : List String → Option String) (p : Bool) :
    ∀ (l : List String) (j e : String), j ∈ l →
      rc (deleteCmdArgs p j) = some e → deleteErrorLog j e ∈ workerLogs rc p l := by
  intro l
  induction l with
  | nil => intro j e h _; cases h
  | cons a l ih =>
    intro j e hj hf
    rcases List.mem_cons.mp hj with rfl | hj'
    · simp [workerLogs, hf]
    · simp only [workerLogs]
      exact List.mem_append_right _ (ih j e hj' hf)

/-- C4: a job `j` whose delete invocation fails (the oracle returns an
error) is logged, does not disturb the rest of the batch (the worker's event
stream is still exactly its job list), still produces exactly one
`CompletionEvent`, and that event is counted by `processResults` like any
success. -/
theorem delete_failure_isolated
    (runCmd : List String → Option String) (isPermanent : Bool)
    (myJobs : List String) (j e : String)
    (hj : j ∈ myJobs) (hfail : runCmd (deleteCmdArgs isPermanent j) = some e) :
    (deleteWorker runCmd isPermanent myJobs).events = myJobs ∧
    deleteErrorLog j e ∈ (deleteWorker runCmd isPermanent myJobs).logs ∧
    (deleteWorker runCmd isPermanent myJobs).events.count j = myJobs.count j ∧
    (processResults (deleteWorker runCmd isPermanent myJobs).events
      ⟨myJobs.length, 0⟩).completed = myJobs.length := by
  rw [deleteWorker_eq]
  refine ⟨rfl, mem_workerLogs runCmd isPermanent myJobs j e hj hfail, rfl, ?_⟩
  rw [processResults_eq]
  simp

theorem delete_failure_isolated_witness :
    (deleteWorker (fun c => if c = deleteCmdArgs false "a" then some "boom" else none)
      false ["a", "b"]).events = ["a", "b"] :=
  (delete_failure_isolated (fun c => if c = deleteCmdArgs false "a" then some "boom" else none)
    false ["a", "b"] "a" "boom" (by decide) (by decide)).1

/-- C5: the confirmation accepts exactly the inputs whose lowercasing is
`"y"` or `"yes"`; a read error is a decline; and on any run that reaches
confirmation and declines, no delete command is issued, `completed` stays 0,
the run returns success and the process exits with status 0. -/
theorem confirm_decline_safe
    (s e : String) (env : Env) (options : CommandOptions) (items : List BitwardenItem)
    (hbw : env.bwFound = true)
    (hfetch : fetchBitwardenItems env.listExec env.unmarshal options.searchTerm = .ok items)
    (hpos : 0 < items.length)
    (hdecl : confirmDeletion (scanln env.stdin) = false) :
    (confirmDeletion (.ok s) = true ↔ (toLowerStr s = "y" ∨ toLowerStr s = "yes")) ∧
    confirmDeletion (.error e) = false ∧
    (runBulkDelete env options).deletes = [] ∧
    (runBulkDelete env options).stats.completed = 0 ∧
    (runBulkDelete env options).stats.total = items.length ∧
    (runBulkDelete env options).result = .ok () ∧
    mainExitCode env options = 0 := by
  have hrun : runBulkDelete env options =
      { result := .ok (), askedConfirm := true, deletes := []
        stats := ⟨items.length, 0⟩, finalMessage := none } := by
    simp [runBulkDelete, hbw, hfetch, hdecl, hpos]
  refine ⟨?_, rfl, ?_, ?_, ?_, ?_, ?_⟩
  · simp [confirmDeletion]
  · rw [hrun]
  · rw [hrun]
  · rw [hrun]
  · rw [hrun]
  · simp [mainExitCode, hrun]

theorem confirm_decline_safe_witness :
    (runBulkDelete
      { bwFound := true, listExec := fun _ => .exited 0 "x" ""
        unmarshal := fun _ => .ok [⟨"a", "n"⟩], stdin := "n\n"
        runCmd := fun _ => none, asgn := fun _ => 0, arrive := id }
      ⟨"", 1, false⟩).deletes = [] :=
  (confirm_decline_safe "YES" "eof"
    { bwFound := true, listExec := fun _ => .exited 0 "x" ""
      unmarshal := fun _ => .ok [⟨"a", "n"⟩], stdin := "n\n"
      runCmd := fun _ => none, asgn := fun _ => 0, arrive := id }
    ⟨"", 1, false⟩ [⟨"a", "n"⟩] rfl rfl (by decide) (by decide)).2.2.1

/-- C7: when the list subprocess succeeds but its payload fails to
unmarshal, the run aborts with the parse-failure error kind (distinct from
the subprocess-failure kind), the process exits non-zero, and no delete
command is invoked. -/
theorem parse_failure_fatal
    (env : Env) (options : CommandOptions) (pmsg : String)
    (hbw : env.bwFound = true)
    (hexec : procErr (env.listExec (listCmdString options.searchTerm)) = none)
    (hparse : env.unmarshal
      (capturedOutput .list (env.listExec (listCmdString options.searchTerm))) = .error pmsg) :
    (runBulkDelete env options).result =
      .error (.fetchError (.parseError ("error parsing list output: " ++ pmsg))) ∧
    (runBulkDelete env options).deletes = [] ∧
    mainExitCode env options = 1 ∧
    (∀ m, FetchError.parseError ("error parsing list output: " ++ pmsg) ≠
      FetchError.execError m) := by
  have hfetch : fetchBitwardenItems env.listExec env.unmarshal options.searchTerm =
      .error (.parseError ("error parsing list output: " ++ pmsg)) := by
    simp [fetchBitwardenItems, hexec, hparse]
  have hrun : runBulkDelete env options =
      { result := .error (.fetchError (.parseError ("error parsing list output: " ++ pmsg)))
        askedConfirm := false, deletes := [], stats := ⟨0, 0⟩, finalMessage := none } := by
    simp [runBulkDelete, hbw, hfetch]
  refine ⟨by rw [hrun], by rw [hrun], by simp [mainExitCode, hrun], by intro m; simp⟩

theorem parse_failure_fatal_witness :
    mainExitCode
      { bwFound := true, listExec := fun _ => .exited 0 "not json" ""
        unmarshal := fun _ => .error "invalid character", stdin := ""
        runCmd := fun _ => none, asgn := fun _ => 0, arrive := id }
      ⟨"", 1, false⟩ = 1 :=
  (parse_failure_fatal
    { bwFound := true, listExec := fun _ => .exited 0 "not json" ""
      unmarshal := fun _ => .error "invalid character", stdin := ""
      runCmd := fun _ => none, asgn := fun _ => 0, arrive := id }
    ⟨"", 1, false⟩ "invalid character" rfl rfl rfl).2.2.1

/-- C8: when the fetched item list is empty, the run never consults the
confirmation prompt, performs no deletion, ends with
`total = completed = 0`, and the process exits with status 0. -/
theorem zero_items_immediate_done
    (env : Env) (options : CommandOptions)
    (hbw : env.bwFound = true)
    (hfetch : fetchBitwardenItems env.listExec env.unmarshal options.searchTerm = .ok []) :
    (runBulkDelete env options).result = .ok () ∧
    (runBulkDelete env options).askedConfirm = false ∧
    (runBulkDelete env options).deletes = [] ∧
    (runBulkDelete env options).stats = ⟨0, 0⟩ ∧
    mainExitCode env options = 0 := by
  have hrun : runBulkDelete env options =
      { result := .ok (), askedConfirm := false, deletes := []
        stats := ⟨0, 0⟩, finalMessage := none } := by
    simp [runBulkDelete, hbw, hfetch]
  refine ⟨by rw [hrun], by rw [hrun], by rw [hrun], by rw [hrun], by simp [mainExitCode, hrun]⟩

theorem zero_items_immediate_done_witness :
    (runBulkDelete
      { bwFound := true, listExec := fun _ => .exited 0 "[]" ""
        unmarshal := fun _ => .ok [], stdin := ""
        runCmd := fun _ => none, asgn := fun _ => 0, arrive := id }
      ⟨"", 1, false⟩).stats = ⟨0, 0⟩ :=
  (zero_items_immediate_done
    { bwFound := true, listExec := fun _ => .exited 0 "[]" ""
      unmarshal := fun _ => .ok [], stdin := ""
      runCmd := fun _ => none, asgn := fun _ => 0, arrive := id }
    ⟨"", 1, false⟩ rfl rfl).2.2.2.1

theorem numWorkers_of_nonpos (b : Int) (hb : b ≤ 0) : numWorkers b = 0 :=
  Int.toNat_of_nonpos hb

theorem engineEvents_zero_workers (rc : List String → Option String) (p : Bool)
    (jobs : List String) (asgn : Nat → Nat) :
    engineEvents rc p jobs asgn 0 = [] := rfl

theorem engineCmds_zero_workers (rc : List String → Option String) (p : Bool)
    (jobs : List String) (asgn : Nat → Nat) :
    engineCmds rc p jobs asgn 0 = [] := rfl

/-- C9: with a non-positive batch size and a non-empty confirmed item set,
`processItems` starts no workers: no delete command is issued, `completed`
finishes at 0 while `total = len(items) > 0`, yet the completion banner
claiming all `total` items were handled is printed (the banner never depends
on `completed`) and the process exits with status 0. The flag parser never
validates the batch size: `-b -3` is passed through as is. -/
theorem nonpositive_batch_claims_success
    (env : Env) (options : CommandOptions) (items : List BitwardenItem)
    (hbw : env.bwFound = true)
    (hfetch : fetchBitwardenItems env.listExec env.unmarshal options.searchTerm = .ok items)
    (hpos : 0 < items.length)
    (hbatch : options.batchSize ≤ 0)
    (hconf : confirmDeletion (scanln env.stdin) = true)
    (harr : ∀ l, (env.arrive l).Perm l) :
    (runBulkDelete env options).deletes = [] ∧
    (runBulkDelete env options).stats.completed = 0 ∧
    (runBulkDelete env options).stats.total = items.length ∧
    (runBulkDelete env options).stats.completed < (runBulkDelete env options).stats.total ∧
    (runBulkDelete env options).finalMessage =
      some (showCompletionMessage ⟨items.length, 0⟩ options) ∧
    (∀ c c', showCompletionMessage ⟨items.length, c⟩ options =
      showCompletionMessage ⟨items.length, c'⟩ options) ∧
    mainExitCode env options = 0 ∧
    (parseCommandLineOptions "" "" 1 (-3) false false).batchSize = -3 := by
  have hC0 : numWorkers options.batchSize = 0 := numWorkers_of_nonpos _ hbatch
  have hev : (processItems items ⟨items.length, 0⟩ options env.runCmd env.asgn env.arrive).events
      = [] := by
    rw [processItems_events, hC0, engineEvents_zero_workers]
    exact (harr []).eq_nil
  have hstats : (processItems items ⟨items.length, 0⟩ options env.runCmd env.asgn env.arrive).stats
      = ⟨items.length, 0⟩ := by
    rw [processItems_stats]
    have : env.arrive (engineEvents env.runCmd options.isPermanent
        (items.map BitwardenItem.id) env.asgn (numWorkers options.batchSize)) = [] := by
      rw [hC0, engineEvents_zero_workers]
      exact (harr []).eq_nil
    rw [this]
    rfl
  have hcmds : (processItems items ⟨items.length, 0⟩ options env.runCmd env.asgn env.arrive).cmds
      = [] := by
    rw [processItems_cmds, hC0, engineCmds_zero_workers]
  have hmsg : (processItems items ⟨items.length, 0⟩ options env.runCmd env.asgn env.arrive).message
      = showCompletionMessage ⟨items.length, 0⟩ options := by
    rw [processItems_message, hstats]
  have hrun : runBulkDelete env options =
      { result := .ok (), askedConfirm := true, deletes := []
        stats := ⟨items.length, 0⟩
        finalMessage := some (showCompletionMessage ⟨items.length, 0⟩ options) } := by
    simp only [runBulkDelete, hbw, Bool.true_eq_false, if_false, hfetch]
    simp [hpos, hconf, hstats, hcmds, hmsg]
  refine ⟨by rw [hrun], by rw [hrun], by rw [hrun], ?_, by rw [hrun], ?_, by simp [mainExitCode, hrun], by decide⟩
  · rw [hrun]
    exact hpos
  · intro c c'
    simp [showCompletionMessage]

theorem nonpositive_batch_claims_success_witness :
    (runBulkDelete
      { bwFound := true, listExec := fun _ => .exited 0 "[...]" ""
        unmarshal := fun _ => .ok [⟨"a", "one"⟩], stdin := "y\n"
        runCmd := fun _ => none, asgn := fun _ => 0, arrive := id }
      (parseCommandLineOptions "" "" 1 (-3) false false)).stats.completed <
    (runBulkDelete
      { bwFound := true, listExec := fun _ => .exited 0 "[...]" ""
        unmarshal := fun _ => .ok [⟨"a", "one"⟩], stdin := "y\n"
        runCmd := fun _ => none, asgn := fun _ => 0, arrive := id }
      (parseCommandLineOptions "" "" 1 (-3) false false)).stats.total :=
  (nonpositive_batch_claims_success
    { bwFound := true, listExec := fun _ => .exited 0 "[...]" ""
      unmarshal := fun _ => .ok [⟨"a", "one"⟩], stdin := "y\n"
      runCmd := fun _ => none, asgn := fun _ => 0, arrive := id }
    (parseCommandLineOptions "" "" 1 (-3) false false) [⟨"a", "one"⟩]
    rfl rfl (by decide) (by decide) (by decide)
    (fun l => List.Perm.refl l)).2.2.2.1

/-- C2: for a non-empty search term, the list command string embeds the term
verbatim between the fixed prefix and the closing quote, and
`fetchBitwardenItems` returns whatever the agent's payload decodes to,
unchanged — no client-side filtering. -/
theorem search_filter_passthrough (s : String) (hs : s ≠ "") :
    listCmdString s = "bw list items --search '" ++ s ++ "'" ∧
    (∀ (exec : String → ProcOutcome)
        (unmarshal : String → Except String (List BitwardenItem))
        (items : List BitwardenItem),
      procErr (exec (listCmdString s)) = none →
      unmarshal (capturedOutput .list (exec (listCmdString s))) = .ok items →
      fetchBitwardenItems exec unmarshal s = .ok items) := by
  constructor
  · have h1 : listCmdString s = "bw list items" ++ (" --search '" ++ s ++ "'") := by
      rw [listCmdString, if_pos hs]
    rw [h1, ← String.append_assoc, ← String.append_assoc]
    rfl
  · intro exec unmarshal items hex hun
    simp [fetchBitwardenItems, hex, hun]

theorem search_filter_passthrough_witness :
    listCmdString "login" = "bw list items --search '" ++ "login" ++ "'" ∧
    fetchBitwardenItems (fun _ => .exited 0 "[]" "") (fun _ => .ok [⟨"i", "n"⟩])
      "login" = .ok [⟨"i", "n"⟩] :=
  ⟨(search_filter_passthrough "login" (by decide)).1,
    (search_filter_passthrough "login" (by decide)).2
      (fun _ => .exited 0 "[]" "") (fun _ => .ok [⟨"i", "n"⟩]) [⟨"i", "n"⟩] rfl rfl⟩

/-- C3 counterexample: it is false that every invocation returns the
subprocess's combined output — the delete invocation (`cmd.Run()`, line 233)
discards the output entirely, so stderr is swallowed there. -/
theorem invoker_combined_output_counterexample :
    ¬ (∀ (mode : InvokeMode) (r : ProcOutcome),
        capturedOutput mode r = combinedOf r) := by
  intro h
  exact absurd (h .delete (.exited 1 "" "diagnostic on stderr")) (by decide)

/-- C3 amended: every invocation yields an error classification exactly when
the process failed to start or exited non-zero; but only the sync invocation
(`CombinedOutput`) returns combined output. The list invocation (`Output`)
returns stdout only, and the delete invocation (`Run`) returns no output at
all. -/
theorem invoker_output_by_mode (r : ProcOutcome) :
    capturedOutput .sync r = combinedOf r ∧
    capturedOutput .list r =
      (match r with | .startFailure _ => "" | .exited _ out _ => out) ∧
    capturedOutput .delete r = "" ∧
    (procErr r = none ↔ ∃ out err, r = .exited 0 out err) := by
  rcases r with m | ⟨c, out, err⟩
  · simp [capturedOutput, combinedOf, procErr]
  · by_cases hc : c = 0
    · subst hc
      simp [capturedOutput, combinedOf, procErr]
    · simp [capturedOutput, combinedOf, procErr, hc]

theorem takeWhile_append_all {α : Type} (p : α → Bool) :
    ∀ (l₁ l₂ : List α), (∀ a ∈ l₁, p a = true) →
      (l₁ ++ l₂).takeWhile p = l₁ ++ l₂.takeWhile p := by
  intro l₁
  induction l₁ with
  | nil => intro l₂ _; rfl
  | cons a l ih =>
    intro l₂ h
    simp only [List.cons_append, List.takeWhile_cons, h a (List.mem_cons_self a l)]
    rw [ih l₂ (fun x hx => h x (List.mem_cons_of_mem a hx))]
    simp

theorem dropWhile_append_all {α : Type} (p : α → Bool) :
    ∀ (l₁ l₂ : List α), (∀ a ∈ l₁, p a = true) →
      (l₁ ++ l₂).dropWhile p = l₂.dropWhile p := by
  intro l₁
  induction l₁ with
  | nil => intro l₂ _; rfl
  | cons a l ih =>
    intro l₂ h
    simp only [List.cons_append, List.dropWhile_cons, h a (List.mem_cons_self a l), if_true]
    exact ih l₂ (fun x hx => h x (List.mem_cons_of_mem a hx))

theorem scanlnCore_token_then_text (w t : List Char)
    (hw : w ≠ [])
    (hwc : ∀ c ∈ w, isSpaceChar c = false ∧ (c == '\n') = false)
    (htn : ∀ c ∈ t, (c == '\n') = false)
    (hts : ∃ c ∈ t, isSpaceChar c = false) :
    scanlnCore (w ++ ' ' :: t) = .error "expected newline" := by
  have h1 : (w ++ ' ' :: t).takeWhile (fun c => !(c == '\n')) = w ++ ' ' :: t := by
    apply List.takeWhile_eq_self_iff.mpr
    intro x hx
    rcases List.mem_append.mp hx with hxw | hxt
    · simp [(hwc x hxw).2]
    · rcases List.mem_cons.mp hxt with rfl | hxt'
      · decide
      · simp [htn x hxt']
  have h2 : (w ++ ' ' :: t).dropWhile isSpaceChar = w ++ ' ' :: t := by
    obtain ⟨a, w', rfl⟩ := List.exists_cons_of_ne_nil hw
    simp [List.cons_append, List.dropWhile_cons,
      (hwc a (List.mem_cons_self a w')).1]
  have h3 : (w ++ ' ' :: t).takeWhile (fun c => !(isSpaceChar c)) = w := by
    rw [takeWhile_append_all _ w (' ' :: t) (fun x hx => by simp [(hwc x hx).1])]
    simp [List.takeWhile_cons, isSpaceChar]
  have h4 : (w ++ ' ' :: t).dropWhile (fun c => !(isSpaceChar c)) = ' ' :: t := by
    rw [dropWhile_append_all _ w (' ' :: t) (fun x hx => by simp [(hwc x hx).1])]
    simp [List.dropWhile_cons, isSpaceChar]
  have h5 : (' ' :: t).dropWhile isSpaceChar = t.dropWhile isSpaceChar := by
    simp [List.dropWhile_cons, isSpaceChar]
  have h6 : t.dropWhile isSpaceChar ≠ [] := by
    rw [Ne, List.dropWhile_eq_nil_iff]
    intro hall
    obtain ⟨c, hc, hcs⟩ := hts
    have := hall c hc
    simp [hcs] at this
  have hwE : w.isEmpty = false := by
    obtain ⟨a, w', rfl⟩ := List.exists_cons_of_ne_nil hw
    rfl
  have hrE : (t.dropWhile isSpaceChar).isEmpty = false := by
    cases hdw : t.dropWhile isSpaceChar with
    | nil => exact absurd hdw h6
    | cons x xs => rfl
  simp only [scanlnCore, h1, h2, h3, h4, h5, hwE, hrE]
  simp

/-- C10: the confirmation read scans a single space-delimited token, not a
whole line: an input line consisting of a token followed by further text
(such as `"yes please"`) makes the read fail with `expected newline`, which
`confirmDeletion` treats as a decline. -/
theorem confirm_token_then_text_is_decline (w t : String)
    (hw : w.data ≠ [])
    (hwc : ∀ c ∈ w.data, isSpaceChar c = false ∧ (c == '\n') = false)
    (htn : ∀ c ∈ t.data, (c == '\n') = false)
    (hts : ∃ c ∈ t.data, isSpaceChar c = false) :
    scanln (w ++ " " ++ t) = .error "expected newline" ∧
    confirmDeletion (scanln (w ++ " " ++ t)) = false := by
  have hspace : (" " : String).data = [' '] := rfl
  have hdata : (w ++ " " ++ t).data = w.data ++ ' ' :: t.data := by
    simp [String.data_append, hspace]
  have hcore := scanlnCore_token_then_text w.data t.data hw hwc htn hts
  have hsc : scanln (w ++ " " ++ t) = .error "expected newline" := by
    simp only [scanln, hdata, hcore]
  exact ⟨hsc, by rw [hsc]; rfl⟩

theorem confirm_token_then_text_is_decline_witness :
    confirmDeletion (scanln ("yes" ++ " " ++ "please")) = false :=
  (confirm_token_then_text_is_decline "yes" "please" (by decide) (by decide)
    (by decide) (by decide)).2
